import Mathlib

/-!
Verification development for the depth-ordered layout compositor implemented in
`compute_depth.py` (script body, lines 90-133) of the LostGANs repository.

The script, for each dataset sample, loads a cached depth map, mirrors it when the
sample was flip-augmented, scales the normalized layout boxes to pixel space in two
forms (size form `(x, y, w, h)` and coordinate form `(xmin, ymin, xmax, ymax)`),
crops the depth map to each box, reduces each crop to its arithmetic mean, min-max
normalizes the per-object means to `[0, 1]`, sorts the objects by normalized depth
(Python's `sorted`, a stable ascending sort keyed on the depth value), and paints a
constant patch per object into an all-zero canvas in that order.

Real values are modelled as rationals; depth maps and canvases as functions from
row and column indices to rationals, together with explicit height/width bounds.
`torch.mean` of an empty tensor is NaN; since `ℚ` has no NaN, per-crop means are
`Option ℚ`, with `none` standing for the undefined (NaN) mean, and a pipeline run
whose arithmetic leaves `ℚ` (i.e. touches NaN) is modelled as `none`.
-/

namespace DepthCompositor

/-- A two-dimensional rational-valued array (depth map or canvas), indexed by
row then column.  Shape bounds are carried separately where they matter. -/
abbrev Grid : Type := ℕ → ℕ → ℚ

/-- The all-zero canvas created by `torch.zeros(depthmap.shape)` (line 126). -/
def zeroGrid : Grid := fun _ _ => 0

/-- A normalized layout box `(x, y, w, h)`, all four values relative to image
width/height (data model of spec section 3). -/
structure NBox where
  x : ℚ
  y : ℚ
  w : ℚ
  h : ℚ

/-- Pixel-space box, size form `(x, y, width, height)` (spec section 3). -/
structure SizeBox where
  x : ℕ
  y : ℕ
  w : ℕ
  h : ℕ
  deriving DecidableEq

/-- Pixel-space box, coordinate form `(xmin, ymin, xmax, ymax)` (spec section 3). -/
structure CoordBox where
  xmin : ℕ
  ymin : ℕ
  xmax : ℕ
  ymax : ℕ
  deriving DecidableEq

/-- Clamp an integer coordinate into `[0, n]` and return it as a natural number. -/
def clampNat (z : ℤ) (n : ℕ) : ℕ := (min (max z 0) (n : ℤ)).toNat

/-- Modelled from the spec: `utils.util.scale_boxes(boxes, (H, W), 'inverse_size',
dtype=torch.int)` is not under `src/`; spec section 4.1 defines the size form as
`x = round(x_norm * W)`, `y = round(y_norm * H)`, `width = round(w_norm * W)`,
`height = round(h_norm * H)`, with all resulting coordinates clamped into
`[0, W]`/`[0, H]` and never negative. -/
def scale_boxes_inverse_size (H W : ℕ) (b : NBox) : SizeBox :=
  { x := clampNat (round (b.x * W)) W
    y := clampNat (round (b.y * H)) H
    w := clampNat (round (b.w * W)) W
    h := clampNat (round (b.h * H)) H }

/-- Modelled from the spec: `utils.util.scale_boxes(boxes, (H, W), 'coordinates',
dtype=torch.int)` is not under `src/`; spec section 4.1 defines the coordinate form
as `xmin = x`, `ymin = y`, `xmax = x + width`, `ymax = y + height` computed from the
(unclamped) size-form values, clamped into `[0, W]`/`[0, H]`. -/
def scale_boxes_coordinates (H W : ℕ) (b : NBox) : CoordBox :=
  { xmin := clampNat (round (b.x * W)) W
    ymin := clampNat (round (b.y * H)) H
    xmax := clampNat (round (b.x * W) + round (b.w * W)) W
    ymax := clampNat (round (b.y * H) + round (b.h * H)) H }

/-- `torch.fliplr(depthmap)` (line 99): mirror a two-dimensional tensor of width
`W` left-right.  `torch.fliplr` returns a new tensor; the input is not mutated,
which in this pure embedding is automatic. -/
def fliplr (W : ℕ) (dm : Grid) : Grid := fun i j => dm i (W - 1 - j)

/-- Lines 97-99: `if flip: depthmap = torch.fliplr(depthmap)` — the depth map
orientation normalizer. -/
def orient (W : ℕ) (flip : Bool) (dm : Grid) : Grid :=
  if flip then fliplr W dm else dm

/-- The pixel the crop reads at relative position `(i, j)`:
`torchvision.transforms.functional.crop` (external library) slices
`img[..., top:top+height, left:left+width]` and zero-pads any part of the
requested rectangle that lies outside the `H × W` image. -/
def cropVal (H W : ℕ) (dm : Grid) (top lft : ℕ) (i j : ℕ) : ℚ :=
  if top + i < H ∧ lft + j < W then dm (top + i) (lft + j) else 0

/-- Sum of `g 0 + ... + g (n-1)`. -/
def sumRow (g : ℕ → ℚ) : ℕ → ℚ
  | 0 => 0
  | n + 1 => sumRow g n + g n

/-- Sum of `f i j` over `i < m`, `j < n`. -/
def sumGrid (f : ℕ → ℕ → ℚ) : ℕ → ℕ → ℚ
  | 0, _ => 0
  | m + 1, n => sumGrid f m n + sumRow (f m) n

/-- Lines 110-114: crop the depth map to a size-form box (the crop of the box's
region: `crop(depthmap, *box)` receives top/left/height/width per spec section
4.3, the crop is the box's rectangle) and take the mean of the crop's values
(`crop_.mean()`).  `torch.mean` of an empty tensor is NaN, modelled as `none`. -/
def cropMean (H W : ℕ) (dm : Grid) (b : SizeBox) : Option ℚ :=
  if b.h = 0 ∨ b.w = 0 then none
  else some (sumGrid (cropVal H W dm b.y b.x) b.h b.w / ((b.h : ℚ) * (b.w : ℚ)))

/-- Binary minimum on `ℚ`, written out so that it evaluates by kernel reduction. -/
def rmin (a b : ℚ) : ℚ := if a ≤ b then a else b

/-- Binary maximum on `ℚ`, written out so that it evaluates by kernel reduction. -/
def rmax (a b : ℚ) : ℚ := if b ≤ a then a else b

/-- Minimum of a list of rationals (`torch.min` over a one-dimensional tensor). -/
def listMin : List ℚ → Option ℚ
  | [] => none
  | x :: xs => some (xs.foldl rmin x)

/-- Maximum of a list of rationals (`torch.max` over a one-dimensional tensor). -/
def listMax : List ℚ → Option ℚ
  | [] => none
  | x :: xs => some (xs.foldl rmax x)

/-- Modelled from the spec: `utils.util.normalize_tensor(t, (lo, hi))` is not
under `src/`; spec section 4.4 defines it as min-max normalization into the
target range using the tensor's own min/max, and, when all values are equal
(min = max, including a single-element tensor), a constant midpoint (0.5 for the
range `(0, 1)`) instead of a division by zero. -/
def normalize_tensor (l : List ℚ) (lo hi : ℚ) : List ℚ :=
  match listMin l, listMax l with
  | some m, some M =>
      if m = M then l.map fun _ => (lo + hi) / 2
      else l.map fun d => lo + (hi - lo) * (d - m) / (M - m)
  | _, _ => []

/-- The comparison used on line 123: `sorted(boxes_depths, key=itemgetter(1))`
orders the `(index, depth)` pairs by their depth component. -/
def depthLe (a b : ℕ × ℚ) : Prop := a.2 ≤ b.2

instance : DecidableRel depthLe := fun a b => inferInstanceAs (Decidable (a.2 ≤ b.2))

/-- Lines 121-123: enumerate the depths as `(index, depth)` pairs and sort them
by depth.  Python's `sorted` is a stable ascending sort, which coincides with
insertion sort inserting each earlier element in front of later equal ones. -/
def sortByDepth (l : List (ℕ × ℚ)) : List (ℕ × ℚ) :=
  List.insertionSort depthLe l

/-- Overwrite the coordinate-form box region of a canvas with the constant `d`
(line 133: `depth_layout[..., y:ymax, x:xmax] = patch` in the case where the
assignment is accepted). -/
def fillRegion (b : CoordBox) (d : ℚ) (c : Grid) : Grid := fun i j =>
  if b.ymin ≤ i ∧ i < b.ymax ∧ b.xmin ≤ j ∧ j < b.xmax then d else c i j

/-- Shape condition under which `depth_layout[..., y:ymax, x:xmax] = patch`
is accepted by torch: each dimension of the right-hand side must equal the
corresponding slice dimension or be 1 (broadcasting); otherwise the assignment
raises a shape-mismatch error. -/
def broadcastOk (s : SizeBox) (b : CoordBox) : Prop :=
  (s.h = b.ymax - b.ymin ∨ s.h = 1) ∧ (s.w = b.xmax - b.xmin ∨ s.w = 1)

instance : ∀ s b, Decidable (broadcastOk s b) := fun s b =>
  inferInstanceAs
    (Decidable ((s.h = b.ymax - b.ymin ∨ s.h = 1) ∧ (s.w = b.xmax - b.xmin ∨ s.w = 1)))

/-- Lines 128-133, one iteration: for the pair `(i, d)` build the constant patch
`d.repeat(crops[i].shape)` (its shape is the size-form crop's shape) and write it
into the canvas slice addressed by the coordinate-form box `coord_boxes[i]`.
A patch shape that torch cannot broadcast to the slice shape raises, modelled as
`none`; since the patch is constant, a successful (possibly broadcast) write is
exactly `fillRegion`. -/
def paintOne (sizeBoxes : List SizeBox) (coordBoxes : List CoordBox)
    (c : Grid) (p : ℕ × ℚ) : Option Grid :=
  match sizeBoxes[p.1]?, coordBoxes[p.1]? with
  | some s, some b => if broadcastOk s b then some (fillRegion b p.2 c) else none
  | _, _ => none

/-- Lines 121-133: the depth-ordered compositor.  Enumerate the normalized
depths, sort by depth value, then fold the paint step over the sorted pairs,
starting from the all-zero canvas. -/
def compositor (sizeBoxes : List SizeBox) (coordBoxes : List CoordBox)
    (depths : List ℚ) : Option Grid :=
  List.foldlM (paintOne sizeBoxes coordBoxes) zeroGrid (sortByDepth depths.enum)

/-- Lines 103-133: the whole per-sample transform after orientation correction.
Scale the boxes to both pixel-space forms, crop the depth map and take per-crop
means (a NaN mean — empty crop — poisons the run: `none`), min-max normalize the
means into `(0, 1)`, and composite. -/
def depth_layout_main (H W : ℕ) (dm : Grid) (boxes : List NBox) : Option Grid := do
  let size_boxes := boxes.map (scale_boxes_inverse_size H W)
  let coord_boxes := boxes.map (scale_boxes_coordinates H W)
  let means ← size_boxes.mapM (cropMean H W dm)
  let depths := normalize_tensor means 0 1
  compositor size_boxes coord_boxes depths

/-- Normalize a Python index bound `a` for a dimension of length `n`:
a negative value addresses from the end (`n + a`, floored at 0), a nonnegative
value is capped at `n`.  This is the semantics of Python slice bounds as used in
`depth_layout[..., y:ymax, x:xmax]`. -/
def pyIdx (n : ℕ) (a : ℤ) : ℕ :=
  if a < 0 then (max 0 ((n : ℤ) + a)).toNat else min a.toNat n

/-- The raw torch slice assignment `c[y:ymax, x:xmax] = patch` on an `H × W`
canvas, with integer (possibly negative) Python slice bounds and a `ph × pw`
patch.  The write succeeds iff each patch dimension equals the slice dimension
or is 1 (torch broadcasting); a size-1 patch dimension is broadcast across the
slice.  No clamping of negative starts to 0 happens beyond Python's own
wrap-around rule. -/
def sliceAssign (H W : ℕ) (c : Grid) (y ymax x xmax : ℤ)
    (patch : Grid) (ph pw : ℕ) : Option Grid :=
  let r0 := pyIdx H y
  let r1 := pyIdx H ymax
  let c0 := pyIdx W x
  let c1 := pyIdx W xmax
  if (ph = r1 - r0 ∨ ph = 1) ∧ (pw = c1 - c0 ∨ pw = 1) then
    some (fun i j =>
      if r0 ≤ i ∧ i < r1 ∧ c0 ≤ j ∧ j < c1 then
        patch (if ph = 1 then 0 else i - r0) (if pw = 1 then 0 else j - c0)
      else c i j)
  else none

/-- The strict-depth-then-original-index lexicographic relation: the order in
which a stable ascending sort on the depth key emits enumerated pairs. -/
def idxDepthLex (a b : ℕ × ℚ) : Prop :=
  a.2 < b.2 ∨ (a.2 = b.2 ∧ a.1 < b.1)

/-- An object as the compositor consumes it: its size-form box (patch shape),
its coordinate-form box (paint position) and its normalized depth scalar. -/
abbrev Obj : Type := SizeBox × CoordBox × ℚ

/-- The normalized depth scalar of an object. -/
def objDepth (o : Obj) : ℚ := o.2.2

/-- The depth comparison lifted to enumerated objects. -/
def objLe (a b : ℕ × Obj) : Prop := objDepth a.2 ≤ objDepth b.2

instance : DecidableRel objLe := fun a b =>
  inferInstanceAs (Decidable (objDepth a.2 ≤ objDepth b.2))

instance : IsTotal (ℕ × ℚ) depthLe := ⟨fun a b => le_total a.2 b.2⟩

instance : IsTrans (ℕ × ℚ) depthLe := ⟨fun _ _ _ h h' => le_trans h h'⟩

instance : IsTotal (ℕ × Obj) objLe := ⟨fun a b => le_total (objDepth a.2) (objDepth b.2)⟩

instance : IsTrans (ℕ × Obj) objLe := ⟨fun _ _ _ h h' => le_trans h h'⟩

/-- One paint iteration expressed directly on an object (rather than through
list lookups at the object's original index); used to relate the index-based
fold of `compositor` to an object-level fold. -/
def paintObj (c : Grid) (o : Obj) : Option Grid :=
  if broadcastOk o.1 o.2.1 then some (fillRegion o.2.1 (objDepth o) c) else none

/-- The strict depth comparison on objects. -/
def objLt (a b : Obj) : Prop := objDepth a < objDepth b

instance : IsAntisymm Obj objLt :=
  ⟨fun _ _ h h' => absurd (lt_trans h h') (lt_irrefl _)⟩

/-- Modelled from the spec: layouts (spec section 3) are sequences of entries,
each a class label and a normalized box, with padding entries carrying the
reserved background/none class `0`.  The dataset loaders are not under `src/`. -/
abbrev Layout : Type := List (ℕ × NBox)

/-- The box list the script actually processes: line 91 binds the class labels
to `objs` but never uses them; every box of the layout is cropped, averaged and
painted regardless of its class. -/
def layout_boxes (L : Layout) : List NBox := L.map (fun e => e.2)

/-- Stated from the claim, for comparison with `layout_boxes`: the box list the
spec mandates, with padding entries (reserved class `0`) excluded from depth
aggregation and compositing. -/
def spec_valid_boxes (L : Layout) : List NBox :=
  (L.filter (fun e => decide (e.1 ≠ 0))).map (fun e => e.2)

/-- Concrete 100×100 depth map for the end-to-end scenario of spec section 8:
constant `0.4` over box 1's region (`[0,50) × [0,50)`), `0.8` over the rest of
box 2's region (`[25,75) × [25,75)`), `0` elsewhere. -/
def dmC8 : Grid := fun i j =>
  if i < 50 ∧ j < 50 then 2/5
  else if 25 ≤ i ∧ i < 75 ∧ 25 ≤ j ∧ j < 75 then 4/5
  else 0

/-- Concrete 4×4 depth map: `0` on the top-left `2 × 2` quadrant, `1` elsewhere. -/
def dm4 : Grid := fun i j => if i < 2 ∧ j < 2 then 0 else 1

/-- Concrete 6×6 depth map: `0` on row 0 and column 0, `1` elsewhere. -/
def dmC5 : Grid := fun i j => if 1 ≤ i ∧ 1 ≤ j then 1 else 0

/-- The compositor applied to a single sequence of objects: its three list
arguments (size boxes for patch shapes, coordinate boxes for paint positions,
normalized depth scalars) are the projections of the object sequence, as in the
script where the three lists share the object index. -/
def compositorL (l : List Obj) : Option Grid :=
  compositor (l.map fun o => o.1) (l.map fun o => o.2.1) (l.map objDepth)

theorem rmin_le_left (a b : ℚ) : rmin a b ≤ a := by
  unfold rmin
  split
  · exact le_refl a
  · exact le_of_not_le (by assumption)

theorem rmin_le_right (a b : ℚ) : rmin a b ≤ b := by
  unfold rmin
  split
  · assumption
  · exact le_refl b

theorem left_le_rmax (a b : ℚ) : a ≤ rmax a b := by
  unfold rmax
  split
  · exact le_refl a
  · exact le_of_not_le (by assumption)

theorem right_le_rmax (a b : ℚ) : b ≤ rmax a b := by
  unfold rmax
  split
  · assumption
  · exact le_refl b

theorem foldl_rmin_le (xs : List ℚ) : ∀ (x y : ℚ), y = x ∨ y ∈ xs → xs.foldl rmin x ≤ y := by
  induction xs with
  | nil =>
      intro x y hy
      rcases hy with rfl | h
      · exact le_refl y
      · cases h
  | cons a t ih =>
      intro x y hy
      show (t.foldl rmin (rmin x a)) ≤ y
      rcases hy with rfl | hy
      · exact le_trans (ih (rmin y a) (rmin y a) (Or.inl rfl)) (rmin_le_left y a)
      · rcases List.mem_cons.mp hy with rfl | hyt
        · exact le_trans (ih (rmin x y) (rmin x y) (Or.inl rfl)) (rmin_le_right x y)
        · exact ih (rmin x a) y (Or.inr hyt)

theorem le_foldl_rmax (xs : List ℚ) : ∀ (x y : ℚ), y = x ∨ y ∈ xs → y ≤ xs.foldl rmax x := by
  induction xs with
  | nil =>
      intro x y hy
      rcases hy with rfl | h
      · exact le_refl y
      · cases h
  | cons a t ih =>
      intro x y hy
      show y ≤ t.foldl rmax (rmax x a)
      rcases hy with rfl | hy
      · exact le_trans (left_le_rmax y a) (ih (rmax y a) (rmax y a) (Or.inl rfl))
      · rcases List.mem_cons.mp hy with rfl | hyt
        · exact le_trans (right_le_rmax x y) (ih (rmax x y) (rmax x y) (Or.inl rfl))
        · exact ih (rmax x a) y (Or.inr hyt)

theorem enumFrom_fst_ge {α : Type} : ∀ (n : ℕ) (l : List α) (p : ℕ × α), p ∈ List.enumFrom n l → n ≤ p.1 := by
  intro n l
  induction l generalizing n with
  | nil => intro p hp; cases hp
  | cons a t ih =>
      intro p hp
      rcases List.mem_cons.mp hp with rfl | hp
      · exact le_refl n
      · exact le_trans (Nat.le_succ n) (ih (n + 1) p hp)

theorem enumFrom_pairwise_fst_lt {α : Type} : ∀ (n : ℕ) (l : List α), (List.enumFrom n l).Pairwise (fun a b => a.1 < b.1) := by
  intro n l
  induction l generalizing n with
  | nil => exact List.Pairwise.nil
  | cons a t ih =>
      refine List.Pairwise.cons ?_ (ih (n + 1))
      intro p hp
      exact lt_of_lt_of_le (Nat.lt_succ_self n) (enumFrom_fst_ge (n + 1) t p hp)

theorem idxDepthLex_le {a b : ℕ × ℚ} (h : idxDepthLex a b) : a.2 ≤ b.2 := by
  rcases h with h | ⟨h, _⟩
  · exact le_of_lt h
  · exact le_of_eq h

theorem orderedInsert_idxDepthLex (x : ℕ × ℚ) : ∀ (s : List (ℕ × ℚ)), s.Pairwise idxDepthLex → (∀ y ∈ s, x.1 < y.1) → (List.orderedInsert depthLe x s).Pairwise idxDepthLex := by
  intro s
  induction s with
  | nil =>
      intro _ _
      simp [List.orderedInsert]
  | cons b t ih =>
      intro hs hidx
      rcases List.pairwise_cons.mp hs with ⟨hbt, htp⟩
      by_cases hxb : depthLe x b
      · rw [List.orderedInsert, if_pos hxb]
        refine List.Pairwise.cons ?_ hs
        intro y hy
        rcases List.mem_cons.mp hy with rfl | hyt
        · rcases lt_or_eq_of_le hxb with hlt | heq
          · exact Or.inl hlt
          · exact Or.inr ⟨heq, hidx y (List.mem_cons_self _ _)⟩
        · have hby : x.2 ≤ y.2 := le_trans hxb (idxDepthLex_le (hbt y hyt))
          rcases lt_or_eq_of_le hby with hlt | heq
          · exact Or.inl hlt
          · exact Or.inr ⟨heq, hidx y (List.mem_cons_of_mem b hyt)⟩
      · rw [List.orderedInsert, if_neg hxb]
        refine List.Pairwise.cons ?_ (ih htp (fun y hy => hidx y (List.mem_cons_of_mem b hy)))
        intro y hy
        rcases (List.mem_orderedInsert depthLe).mp hy with rfl | hyt
        · exact Or.inl (lt_of_not_le hxb)
        · exact hbt y hyt

theorem sortByDepth_pairwise_lex : ∀ (l : List (ℕ × ℚ)), l.Pairwise (fun a b => a.1 < b.1) → (sortByDepth l).Pairwise idxDepthLex := by
  intro l
  induction l with
  | nil =>
      intro _
      exact List.Pairwise.nil
  | cons x t ih =>
      intro h
      rcases List.pairwise_cons.mp h with ⟨hxt, htp⟩
      show (List.orderedInsert depthLe x (List.insertionSort depthLe t)).Pairwise idxDepthLex
      refine orderedInsert_idxDepthLex x _ (ih htp) ?_
      intro y hy
      exact hxt y ((List.perm_insertionSort depthLe t).mem_iff.mp hy)

end DepthCompositor

namespace DepthCompositor

/-- C1.  The compositor sorts the enumerated `(original index, normalized depth)`
pairs by depth, ascending, with a stable tie-break on the original index: the
sorted sequence is pairwise ordered by "smaller depth, or equal depth and
smaller original index", it is a permutation of the enumeration, and the
compositor paints by folding the paint step over exactly that sorted sequence. -/
theorem c1_stable_ascending_sort (ds : List ℚ) :
    (sortByDepth ds.enum).Pairwise idxDepthLex ∧
    (sortByDepth ds.enum).Perm ds.enum ∧
    ∀ (sb : List SizeBox) (cb : List CoordBox),
      compositor sb cb ds = List.foldlM (paintOne sb cb) zeroGrid (sortByDepth ds.enum) := by
  refine ⟨?_, List.perm_insertionSort depthLe ds.enum, fun _ _ => rfl⟩
  apply sortByDepth_pairwise_lex
  exact enumFrom_pairwise_fst_lt 0 ds

/-- C5 (amended).  The sort direction is hard-coded, not configured: for every
input the compositor's painting sequence is sorted ascending by depth value
(line 123 `sorted(boxes_depths, key=itemgetter(1))`), is a permutation of the
enumerated input, and the compositor silently paints in that order — there is
no configuration value and no startup failure path. -/
theorem c5_amended_hardcoded_ascending (ds : List ℚ) :
    List.Sorted depthLe (sortByDepth ds.enum) ∧
    (sortByDepth ds.enum).Perm ds.enum ∧
    ∀ (sb : List SizeBox) (cb : List CoordBox),
      compositor sb cb ds = List.foldlM (paintOne sb cb) zeroGrid (sortByDepth ds.enum) :=
  ⟨List.sorted_insertionSort depthLe ds.enum,
   List.perm_insertionSort depthLe ds.enum, fun _ _ => rfl⟩

/-- C6.  The orientation normalizer returns the depth map unchanged when the
flip flag is false, mirrors it left-right when the flag is true, and flipping
twice restores every in-range entry of the original map; the embedding is a
pure function of the input map, which is never mutated. -/
theorem c6_flip_involutive (W : ℕ) (dm : Grid) :
    orient W false dm = dm ∧
    (∀ i j, orient W true dm i j = dm i (W - 1 - j)) ∧
    ∀ i j, j < W → orient W true (orient W true dm) i j = dm i j := by
  refine ⟨rfl, fun i j => rfl, ?_⟩
  intro i j hj
  show dm i (W - 1 - (W - 1 - j)) = dm i j
  have h : W - 1 - (W - 1 - j) = j := by omega
  rw [h]

/-- Witness for C6 at `W = 3`, the map `(i, j) ↦ i + j`, and the pixel `(0, 1)`. -/
theorem c6_flip_involutive_witness :
    orient 3 false (fun (i j : ℕ) => (i + j : ℚ)) = (fun (i j : ℕ) => (i + j : ℚ)) ∧
    orient 3 true (orient 3 true (fun (i j : ℕ) => (i + j : ℚ))) 0 1 =
      (fun (i j : ℕ) => (i + j : ℚ)) 0 1 :=
  ⟨(c6_flip_involutive 3 (fun (i j : ℕ) => (i + j : ℚ))).1,
   (c6_flip_involutive 3 (fun (i j : ℕ) => (i + j : ℚ))).2.2 0 1 (by decide)⟩

/-- C7.  For every non-empty list of per-object scalars, every output of the
depth value normalizer (target range `(0, 1)`) lies in `[0, 1]`; when the
list's minimum equals its maximum the output is the constant `1/2` for every
object, and in particular a single-element list normalizes to `[1/2]`. -/
theorem c7_normalizer_range (l : List ℚ) (hne : l ≠ []) :
    (∀ d ∈ normalize_tensor l 0 1, 0 ≤ d ∧ d ≤ 1) ∧
    (listMin l = listMax l → normalize_tensor l 0 1 = l.map fun _ => 1/2) ∧
    ∀ x : ℚ, normalize_tensor [x] 0 1 = [1/2] := by
  obtain ⟨x, xs, rfl⟩ := List.exists_cons_of_ne_nil hne
  have hmle : ∀ y ∈ x :: xs, xs.foldl rmin x ≤ y := by
    intro y hy
    rcases List.mem_cons.mp hy with rfl | hy
    · exact foldl_rmin_le xs y y (Or.inl rfl)
    · exact foldl_rmin_le xs x y (Or.inr hy)
  have hMge : ∀ y ∈ x :: xs, y ≤ xs.foldl rmax x := by
    intro y hy
    rcases List.mem_cons.mp hy with rfl | hy
    · exact le_foldl_rmax xs y y (Or.inl rfl)
    · exact le_foldl_rmax xs x y (Or.inr hy)
  have hmM : xs.foldl rmin x ≤ xs.foldl rmax x :=
    le_trans (hmle x (List.mem_cons_self x xs)) (hMge x (List.mem_cons_self x xs))
  have hnorm : normalize_tensor (x :: xs) 0 1 =
      if xs.foldl rmin x = xs.foldl rmax x then (x :: xs).map fun _ => ((0 : ℚ) + 1) / 2
      else (x :: xs).map fun d =>
        0 + (1 - 0) * (d - xs.foldl rmin x) / (xs.foldl rmax x - xs.foldl rmin x) := rfl
  have hsingle : ∀ y : ℚ, normalize_tensor [y] 0 1 = [1/2] := by
    intro y
    have hy : normalize_tensor [y] 0 1 =
        if y = y then [y].map fun _ => ((0 : ℚ) + 1) / 2
        else [y].map fun d => 0 + (1 - 0) * (d - y) / (y - y) := rfl
    rw [hy, if_pos rfl]
    norm_num
  refine ⟨?_, ?_, hsingle⟩
  · intro d hd
    rw [hnorm] at hd
    by_cases heq : xs.foldl rmin x = xs.foldl rmax x
    · rw [if_pos heq] at hd
      rcases List.mem_map.mp hd with ⟨d₀, _, rfl⟩
      norm_num
    · rw [if_neg heq] at hd
      rcases List.mem_map.mp hd with ⟨d₀, hd₀, rfl⟩
      have hlt : xs.foldl rmin x < xs.foldl rmax x := lt_of_le_of_ne hmM heq
      have hpos : (0 : ℚ) < xs.foldl rmax x - xs.foldl rmin x := sub_pos.mpr hlt
      have hval : (0 : ℚ) + (1 - 0) * (d₀ - xs.foldl rmin x) / (xs.foldl rmax x - xs.foldl rmin x) =
          (d₀ - xs.foldl rmin x) / (xs.foldl rmax x - xs.foldl rmin x) := by ring
      rw [hval]
      constructor
      · exact div_nonneg (sub_nonneg.mpr (hmle d₀ hd₀)) (le_of_lt hpos)
      · rw [div_le_one hpos]
        exact sub_le_sub_right (hMge d₀ hd₀) (xs.foldl rmin x)
  · intro hminmax
    have heq : xs.foldl rmin x = xs.foldl rmax x := by
      have h' : (some (xs.foldl rmin x) : Option ℚ) = some (xs.foldl rmax x) := hminmax
      exact Option.some.inj h'
    rw [hnorm, if_pos heq]
    norm_num

/-- Witness for C7 at the two-element list `[2, 5]`. -/
theorem c7_normalizer_range_witness :
    (∀ d ∈ normalize_tensor [2, 5] 0 1, 0 ≤ d ∧ d ≤ 1) ∧
    (listMin [2, 5] = listMax [2, 5] → normalize_tensor [2, 5] 0 1 = [2, 5].map fun _ => 1/2) ∧
    ∀ x : ℚ, normalize_tensor [x] 0 1 = [1/2] :=
  c7_normalizer_range [2, 5] (by simp)

set_option maxRecDepth 8000 in
unseal Rat.mul Rat.inv Rat.add Rat.sub in
theorem c2_sort_eval : sortByDepth ([(1:ℚ)/5, 9/10].enum) = [(0, 1/5), (1, 9/10)] := by
  decide

set_option maxRecDepth 8000 in
unseal Rat.mul Rat.inv Rat.add Rat.sub in
theorem c2_comp_eval :
    compositor [⟨0, 0, 6, 6⟩, ⟨3, 3, 5, 5⟩] [⟨0, 0, 6, 6⟩, ⟨3, 3, 8, 8⟩] [1/5, 9/10] =
      some (fillRegion ⟨3, 3, 8, 8⟩ (9/10) (fillRegion ⟨0, 0, 6, 6⟩ (1/5) zeroGrid)) := by
  show List.foldlM _ zeroGrid (sortByDepth ([(1:ℚ)/5, 9/10].enum)) = _
  rw [c2_sort_eval]
  rfl

/-- C2.  The paint loop overwrites unconditionally: whenever a paint step
succeeds, every pixel of the painted coordinate-form box region of the result
holds that object's depth value, regardless of what was painted before; in the
concrete occlusion scenario (box A with coordinate box `(0,0,6,6)` and depth
`0.2` fully containing the top-left corner of box B with coordinate box
`(3,3,8,8)` and depth `0.9`), every pixel of the overlap `[3,6) × [3,6)` of the
finished canvas holds `0.9`, not `0.2`. -/
theorem c2_later_paint_overwrites :
    (∀ (sb : List SizeBox) (cb : List CoordBox) (c : Grid) (p : ℕ × ℚ) (g : Grid) (b : CoordBox)
        (i j : ℕ), paintOne sb cb c p = some g → cb[p.1]? = some b →
        b.ymin ≤ i → i < b.ymax → b.xmin ≤ j → j < b.xmax → g i j = p.2) ∧
    ∀ i j : ℕ, 3 ≤ i → i < 6 → 3 ≤ j → j < 6 →
      ((compositor [⟨0, 0, 6, 6⟩, ⟨3, 3, 5, 5⟩] [⟨0, 0, 6, 6⟩, ⟨3, 3, 8, 8⟩]
          [1/5, 9/10]).getD zeroGrid) i j = 9/10 := by
  constructor
  · intro sb cb c p g b i j hp hcb hy1 hy2 hx1 hx2
    unfold paintOne at hp
    rcases hsb : sb[p.1]? with _ | s
    · rw [hsb, hcb] at hp
      cases hp
    · rw [hsb, hcb] at hp
      change (if broadcastOk s b then some (fillRegion b p.2 c) else none) = some g at hp
      by_cases hbc : broadcastOk s b
      · rw [if_pos hbc] at hp
        have hg : g = fillRegion b p.2 c := (Option.some.inj hp).symm
        rw [hg]
        show (if b.ymin ≤ i ∧ i < b.ymax ∧ b.xmin ≤ j ∧ j < b.xmax then p.2 else c i j) = p.2
        rw [if_pos ⟨hy1, hy2, hx1, hx2⟩]
      · rw [if_neg hbc] at hp
        cases hp
  · intro i j hi1 hi2 hj1 hj2
    rw [c2_comp_eval]
    show fillRegion ⟨3, 3, 8, 8⟩ (9/10) (fillRegion ⟨0, 0, 6, 6⟩ (1/5) zeroGrid) i j = 9/10
    show (if 3 ≤ i ∧ i < 8 ∧ 3 ≤ j ∧ j < 8 then (9:ℚ)/10 else _) = 9/10
    rw [if_pos (by omega)]

/-- Witness for C2: the overwrite lemma at a one-object paint onto the zero
canvas, and the occlusion scenario at the overlap pixel `(3, 3)`. -/
theorem c2_later_paint_overwrites_witness :
    fillRegion ⟨0, 0, 1, 1⟩ 7 zeroGrid 0 0 = ((0, (7:ℚ)) : ℕ × ℚ).2 ∧
    ((compositor [⟨0, 0, 6, 6⟩, ⟨3, 3, 5, 5⟩] [⟨0, 0, 6, 6⟩, ⟨3, 3, 8, 8⟩]
        [1/5, 9/10]).getD zeroGrid) 3 3 = 9/10 :=
  ⟨c2_later_paint_overwrites.1 [⟨0, 0, 1, 1⟩] [⟨0, 0, 1, 1⟩] zeroGrid (0, 7)
      (fillRegion ⟨0, 0, 1, 1⟩ 7 zeroGrid) ⟨0, 0, 1, 1⟩ 0 0 rfl rfl
      (by decide) (by decide) (by decide) (by decide),
   c2_later_paint_overwrites.2 3 3 (by decide) (by decide) (by decide) (by decide)⟩

set_option maxRecDepth 8000 in
unseal Rat.mul Rat.inv Rat.add Rat.sub in
theorem c3_main_eval :
    depth_layout_main 4 4 dm4 [⟨0, 0, 0, 1/2⟩, ⟨0, 0, 1/2, 1/2⟩] = none := by
  rfl

set_option maxRecDepth 8000 in
unseal Rat.mul Rat.inv Rat.add Rat.sub in
theorem c3_crop_eval :
    (scale_boxes_inverse_size 4 4 ⟨0, 0, 0, 1/2⟩).w = 0 ∧
    cropMean 4 4 dm4 (scale_boxes_inverse_size 4 4 ⟨0, 0, 0, 1/2⟩) = none ∧
    cropMean 4 4 dm4 (scale_boxes_inverse_size 4 4 ⟨0, 0, 0, 1/2⟩) ≠ some 0 := by
  decide

/-- C3.  A box whose pixel-space width rounds to 0 produces an empty crop; the
aggregator's mean over it is `torch.mean` of an empty tensor, i.e. NaN
(modelled `none`), not the depth scalar 0, and no exclusion from compositing
happens anywhere in the script: the undefined mean poisons the whole run
(modelled as the pipeline returning `none`). -/
theorem c3_empty_crop_nan_mean :
    (scale_boxes_inverse_size 4 4 ⟨0, 0, 0, 1/2⟩).w = 0 ∧
    cropMean 4 4 dm4 (scale_boxes_inverse_size 4 4 ⟨0, 0, 0, 1/2⟩) = none ∧
    cropMean 4 4 dm4 (scale_boxes_inverse_size 4 4 ⟨0, 0, 0, 1/2⟩) ≠ some 0 ∧
    depth_layout_main 4 4 dm4 [⟨0, 0, 0, 1/2⟩, ⟨0, 0, 1/2, 1/2⟩] = none :=
  ⟨c3_crop_eval.1, c3_crop_eval.2.1, c3_crop_eval.2.2, c3_main_eval⟩

set_option maxRecDepth 20000 in
unseal Rat.mul Rat.inv Rat.add Rat.sub in
theorem c4h1 :
    cropMean 4 4 dm4 (scale_boxes_inverse_size 4 4 ⟨1/2, 1/2, 1/2, 1/2⟩) = some 1 := by
  decide

set_option maxRecDepth 20000 in
unseal Rat.mul Rat.inv Rat.add Rat.sub in
theorem c4h2 :
    ((depth_layout_main 4 4 dm4
        (layout_boxes [(1, ⟨0, 0, 1/2, 1/2⟩), (0, ⟨1/2, 1/2, 1/2, 1/2⟩)])).getD zeroGrid) 3 3 = 1 := by
  decide

set_option maxRecDepth 20000 in
unseal Rat.mul Rat.inv Rat.add Rat.sub in
theorem c4h3 :
    ((depth_layout_main 4 4 dm4
        (spec_valid_boxes [(1, ⟨0, 0, 1/2, 1/2⟩), (0, ⟨1/2, 1/2, 1/2, 1/2⟩)])).getD zeroGrid) 3 3 = 0 := by
  decide

set_option maxRecDepth 40000 in
unseal Rat.mul Rat.inv Rat.add Rat.sub in
theorem c5h1 :
    (depth_layout_main 6 6 dmC5 [⟨0, 0, 1/2, 1/2⟩, ⟨1/6, 1/6, 1/2, 1/2⟩]).isSome = true := by
  decide

set_option maxRecDepth 40000 in
unseal Rat.mul Rat.inv Rat.add Rat.sub in
theorem c5h2 :
    ((depth_layout_main 6 6 dmC5 [⟨0, 0, 1/2, 1/2⟩, ⟨1/6, 1/6, 1/2, 1/2⟩]).getD zeroGrid) 2 2 = 1 := by
  decide

/-- C4.  Padding entries (reserved class 0) are not excluded: the script maps
over every box of the layout, so a crop mean is computed for the padding box and
its patch is painted; at pixel `(3, 3)` the canvas holds the padding object's
normalized depth `1`, whereas running on the spec-mandated box list (padding
filtered out) paints nothing there. -/
theorem c4_padding_not_excluded :
    cropMean 4 4 dm4 (scale_boxes_inverse_size 4 4 ⟨1/2, 1/2, 1/2, 1/2⟩) = some 1 ∧
    layout_boxes [(1, ⟨0, 0, 1/2, 1/2⟩), (0, ⟨1/2, 1/2, 1/2, 1/2⟩)] =
      [⟨0, 0, 1/2, 1/2⟩, ⟨1/2, 1/2, 1/2, 1/2⟩] ∧
    ((depth_layout_main 4 4 dm4
        (layout_boxes [(1, ⟨0, 0, 1/2, 1/2⟩), (0, ⟨1/2, 1/2, 1/2, 1/2⟩)])).getD zeroGrid) 3 3 = 1 ∧
    ((depth_layout_main 4 4 dm4
        (spec_valid_boxes [(1, ⟨0, 0, 1/2, 1/2⟩), (0, ⟨1/2, 1/2, 1/2, 1/2⟩)])).getD zeroGrid) 3 3 = 0 := by
  refine ⟨c4h1, rfl, c4h2, c4h3⟩

/-- C5 (counterexample).  With no sort-direction configuration anywhere, the
pipeline does not fail at startup: on a concrete two-object input it silently
produces a canvas, and the overlap pixel `(2, 2)` holds the higher normalized
depth `1` — the hard-coded ascending (nearest-wins) default. -/
theorem c5_counterexample_silent_default :
    (depth_layout_main 6 6 dmC5 [⟨0, 0, 1/2, 1/2⟩, ⟨1/6, 1/6, 1/2, 1/2⟩]).isSome = true ∧
    ((depth_layout_main 6 6 dmC5 [⟨0, 0, 1/2, 1/2⟩, ⟨1/6, 1/6, 1/2, 1/2⟩]).getD zeroGrid) 2 2 = 1 :=
  ⟨c5h1, c5h2⟩

/-- C10 (counterexample).  The torch slice assignment does not require the patch
shape to equal the slice shape exactly: a `1 × 1` patch written into the `2 × 2`
slice `[0:2, 0:2]` of a `4 × 4` canvas succeeds by broadcasting (and fills pixel
`(1, 1)` with the patch value), even though `1 ≠ 2`. -/
theorem c10_counterexample_broadcast :
    (sliceAssign 4 4 zeroGrid 0 2 0 2 (fun _ _ => 5) 1 1).isSome = true ∧
    ((sliceAssign 4 4 zeroGrid 0 2 0 2 (fun _ _ => 5) 1 1).getD zeroGrid) 1 1 = 5 ∧
    pyIdx 4 2 - pyIdx 4 0 = 2 ∧ (1 : ℕ) ≠ 2 := by
  refine ⟨rfl, ?_, by decide, by decide⟩
  show (if (0 ≤ 1 ∧ 1 < 2 ∧ 0 ≤ 1 ∧ 1 < 2 : Prop) then (5:ℚ) else zeroGrid 1 1) = 5
  rw [if_pos (by decide)]

/-- C10 (amended).  The paint write performs no clamping or bounds-checking of
its own: it succeeds exactly when each patch dimension equals the slice
dimension or is 1 (torch broadcasting) — not only on exact shape agreement — and
raises (models as `none`) otherwise; a negative slice bound in `[-n, 0)`
addresses the canvas from the right/bottom edge (`n + a`) rather than being
clamped to 0, while a bound in `[0, n]` is used as is; and on exact shape
agreement with in-range bounds the write is the plain region overwrite of the
coordinate-form box slice by the patch. -/
theorem c10_amended_slice_semantics (H W : ℕ) (c : Grid) (y ymax x xmax : ℤ)
    (patch : Grid) (ph pw : ℕ) :
    ((sliceAssign H W c y ymax x xmax patch ph pw).isSome = true ↔
      ((ph = pyIdx H ymax - pyIdx H y ∨ ph = 1) ∧ (pw = pyIdx W xmax - pyIdx W x ∨ pw = 1))) ∧
    (∀ (n : ℕ) (a : ℤ), -(n : ℤ) ≤ a → a < 0 → pyIdx n a = ((n : ℤ) + a).toNat) ∧
    (∀ (n : ℕ) (a : ℤ), 0 ≤ a → a ≤ (n : ℤ) → pyIdx n a = a.toNat) ∧
    ∀ (y0 ymax0 x0 xmax0 : ℕ), y0 ≤ ymax0 → ymax0 ≤ H → x0 ≤ xmax0 → xmax0 ≤ W →
      ph = ymax0 - y0 → pw = xmax0 - x0 →
      sliceAssign H W c y0 ymax0 x0 xmax0 patch ph pw =
        some (fun i j => if y0 ≤ i ∧ i < ymax0 ∧ x0 ≤ j ∧ j < xmax0
          then patch (i - y0) (j - x0) else c i j) := by
  have hpy : ∀ (n : ℕ) (a : ℤ), 0 ≤ a → a ≤ (n : ℤ) → pyIdx n a = a.toNat := by
    intro n a h0 hn
    unfold pyIdx
    rw [if_neg (not_lt.mpr h0)]
    have : a.toNat ≤ n := by omega
    omega
  refine ⟨?_, ?_, hpy, ?_⟩
  · unfold sliceAssign
    by_cases hb : (ph = pyIdx H ymax - pyIdx H y ∨ ph = 1) ∧ (pw = pyIdx W xmax - pyIdx W x ∨ pw = 1)
    · rw [if_pos hb]
      simp [hb]
    · rw [if_neg hb]
      simp [hb]
  · intro n a hna ha
    unfold pyIdx
    rw [if_pos ha]
    omega
  · intro y0 ymax0 x0 xmax0 hy0 hymax hx0 hxmax hph hpw
    have hr0 : pyIdx H (y0 : ℤ) = y0 := by
      rw [hpy H y0 (by omega) (by omega)]
      omega
    have hr1 : pyIdx H (ymax0 : ℤ) = ymax0 := by
      rw [hpy H ymax0 (by omega) (by omega)]
      omega
    have hc0 : pyIdx W (x0 : ℤ) = x0 := by
      rw [hpy W x0 (by omega) (by omega)]
      omega
    have hc1 : pyIdx W (xmax0 : ℤ) = xmax0 := by
      rw [hpy W xmax0 (by omega) (by omega)]
      omega
    unfold sliceAssign
    rw [hr0, hr1, hc0, hc1]
    rw [if_pos ⟨Or.inl hph, Or.inl hpw⟩]
    refine congrArg some (funext fun i => funext fun j => ?_)
    by_cases hin : y0 ≤ i ∧ i < ymax0 ∧ x0 ≤ j ∧ j < xmax0
    · rw [if_pos hin, if_pos hin]
      have hph1 : ph = 1 → i - y0 = 0 := by omega
      have hpw1 : pw = 1 → j - x0 = 0 := by omega
      by_cases h1 : ph = 1
      · by_cases h2 : pw = 1
        · rw [if_pos h1, if_pos h2, hph1 h1, hpw1 h2]
        · rw [if_pos h1, if_neg h2, hph1 h1]
      · by_cases h2 : pw = 1
        · rw [if_neg h1, if_pos h2, hpw1 h2]
        · rw [if_neg h1, if_neg h2]
    · rw [if_neg hin, if_neg hin]

theorem foldlM_congr_mem {α σ : Type} {f g : σ → α → Option σ} :
    ∀ (l : List α), (∀ a ∈ l, ∀ c, f c a = g c a) → ∀ (init : σ),
      l.foldlM f init = l.foldlM g init := by
  intro l
  induction l with
  | nil => intro _ _; rfl
  | cons a t ih =>
      intro h init
      rw [List.foldlM_cons, List.foldlM_cons, h a (List.mem_cons_self _ _)]
      cases hga : g init a with
      | none => rfl
      | some c =>
          show (some c >>= fun s => t.foldlM f s) = some c >>= fun s => t.foldlM g s
          simp only [Option.bind_eq_bind, Option.some_bind]
          exact ih (fun a ha c => h a (List.mem_cons_of_mem _ ha) c) c

theorem orderedInsert_enum_map (x : ℕ × Obj) :
    ∀ (s : List (ℕ × Obj)),
      List.orderedInsert depthLe (Prod.map id objDepth x) (s.map (Prod.map id objDepth)) =
        (List.orderedInsert objLe x s).map (Prod.map id objDepth) := by
  intro s
  induction s with
  | nil => rfl
  | cons b t ih =>
      by_cases h : objLe x b
      · have h' : depthLe (Prod.map id objDepth x) (Prod.map id objDepth b) := h
        rw [List.map_cons, List.orderedInsert, if_pos h', List.orderedInsert, if_pos h,
          List.map_cons, List.map_cons]
      · have h' : ¬depthLe (Prod.map id objDepth x) (Prod.map id objDepth b) := h
        rw [List.map_cons, List.orderedInsert, if_neg h', List.orderedInsert, if_neg h,
          List.map_cons, ih]

theorem insertionSort_enum_map :
    ∀ (l : List (ℕ × Obj)),
      List.insertionSort depthLe (l.map (Prod.map id objDepth)) =
        (List.insertionSort objLe l).map (Prod.map id objDepth) := by
  intro l
  induction l with
  | nil => rfl
  | cons a t ih =>
      rw [List.map_cons, List.insertionSort, List.insertionSort, ih,
        orderedInsert_enum_map]

theorem compositorL_eq_objFold (l : List Obj) :
    compositorL l =
      List.foldlM (fun c (p : ℕ × Obj) => paintObj c p.2) zeroGrid
        (List.insertionSort objLe l.enum) := by
  show List.foldlM _ zeroGrid (sortByDepth (l.map objDepth).enum) = _
  rw [List.enum_map]
  show List.foldlM _ zeroGrid (List.insertionSort depthLe (l.enum.map (Prod.map id objDepth))) = _
  rw [insertionSort_enum_map, List.foldlM_map]
  apply foldlM_congr_mem
  intro p hp c
  have hmem : p ∈ l.enum := (List.perm_insertionSort objLe l.enum).mem_iff.mp hp
  have hget : l[p.1]? = some p.2 := List.mem_enum_iff_getElem?.mp hmem
  show paintOne (l.map fun o => o.1) (l.map fun o => o.2.1) c (p.1, objDepth p.2) = paintObj c p.2
  unfold paintOne
  rw [List.getElem?_map, List.getElem?_map, hget]
  rfl

theorem sorted_proj_strict (l : List Obj) (hnd : (l.map objDepth).Nodup) :
    ((List.insertionSort objLe l.enum).map Prod.snd).Pairwise objLt ∧
    ((List.insertionSort objLe l.enum).map Prod.snd).Perm l := by
  have hperm : ((List.insertionSort objLe l.enum).map Prod.snd).Perm l := by
    have h1 : (List.insertionSort objLe l.enum).Perm l.enum := List.perm_insertionSort _ _
    have h2 := h1.map Prod.snd
    rw [List.enum_map_snd] at h2
    exact h2
  refine ⟨?_, hperm⟩
  have hsorted : ((List.insertionSort objLe l.enum).map Prod.snd).Pairwise
      (fun a b => objDepth a ≤ objDepth b) :=
    List.pairwise_map.mpr (List.sorted_insertionSort objLe l.enum)
  have hnodup : ((List.insertionSort objLe l.enum).map Prod.snd).map objDepth |>.Nodup :=
    ((hperm.map objDepth).symm).nodup hnd
  have hne : ((List.insertionSort objLe l.enum).map Prod.snd).Pairwise
      (fun a b => objDepth a ≠ objDepth b) := List.pairwise_map.mp hnodup
  exact (hsorted.and hne).imp fun h => lt_of_le_of_ne h.1 h.2

/-- C9.  The compositor is a pure function (two runs on the same input yield the
same canvas by reflexivity), and it is order-independent up to the declared
tie-break: for any two permutations of one object sequence whose normalized
depth scalars are pairwise distinct, the composited canvases coincide. -/
theorem c9_compositor_permutation_invariant (l₁ l₂ : List Obj)
    (hperm : l₁.Perm l₂) (hnd : (l₁.map objDepth).Nodup) :
    compositorL l₁ = compositorL l₂ := by
  rw [compositorL_eq_objFold, compositorL_eq_objFold]
  have hfold : ∀ (s : List (ℕ × Obj)) (init : Grid),
      List.foldlM (fun c (p : ℕ × Obj) => paintObj c p.2) init s =
        List.foldlM paintObj init (s.map Prod.snd) := by
    intro s init
    rw [List.foldlM_map]
  rw [hfold, hfold]
  suffices h : (List.insertionSort objLe l₁.enum).map Prod.snd =
      (List.insertionSort objLe l₂.enum).map Prod.snd by rw [h]
  obtain ⟨hs₁, hp₁⟩ := sorted_proj_strict l₁ hnd
  obtain ⟨hs₂, hp₂⟩ := sorted_proj_strict l₂ ((hperm.map objDepth).nodup hnd)
  exact List.eq_of_perm_of_sorted (hp₁.trans (hperm.trans hp₂.symm)) hs₁ hs₂

/-- Witness for C9: swapping two objects with distinct depths leaves the
composited canvas unchanged. -/
theorem c9_compositor_permutation_invariant_witness :
    compositorL [(⟨0, 0, 2, 2⟩, ⟨0, 0, 2, 2⟩, (1 : ℚ)), (⟨1, 1, 2, 2⟩, ⟨1, 1, 3, 3⟩, (2 : ℚ))] =
      compositorL [(⟨1, 1, 2, 2⟩, ⟨1, 1, 3, 3⟩, (2 : ℚ)), (⟨0, 0, 2, 2⟩, ⟨0, 0, 2, 2⟩, (1 : ℚ))] :=
  c9_compositor_permutation_invariant _ _
    (List.Perm.swap _ _ _) (by decide)

/-- Witness for C10 (amended): success-iff-broadcastable at the counterexample
shapes, negative bound `-2` on a length-4 axis, nonnegative bound `2`, and the
exact-shape overwrite at a concrete `2 × 2` write. -/
theorem c10_amended_slice_semantics_witness :
    ((sliceAssign 4 4 zeroGrid 1 3 0 2 (fun _ _ => 3) 2 2).isSome = true ↔
      ((2 = pyIdx 4 3 - pyIdx 4 1 ∨ 2 = 1) ∧ (2 = pyIdx 4 2 - pyIdx 4 0 ∨ 2 = 1))) ∧
    pyIdx 4 (-2) = ((4 : ℤ) + (-2)).toNat ∧
    pyIdx 4 2 = (2 : ℤ).toNat ∧
    sliceAssign 4 4 zeroGrid (1 : ℕ) (3 : ℕ) (0 : ℕ) (2 : ℕ) (fun _ _ => 3) 2 2 =
      some (fun i j => if 1 ≤ i ∧ i < 3 ∧ 0 ≤ j ∧ j < 2
        then (fun _ _ => (3:ℚ)) (i - 1) (j - 0) else zeroGrid i j) := by
  have h := c10_amended_slice_semantics 4 4 zeroGrid 1 3 0 2 (fun _ _ => 3) 2 2
  exact ⟨h.1, h.2.1 4 (-2) (by decide) (by decide), h.2.2.1 4 2 (by decide) (by decide),
    h.2.2.2 1 3 0 2 (by decide) (by decide) (by decide) (by decide) (by decide) (by decide)⟩

set_option maxRecDepth 8000 in
unseal Rat.mul Rat.inv Rat.add Rat.sub in
theorem c8h_sbox1 : scale_boxes_inverse_size 100 100 ⟨0, 0, 1/2, 1/2⟩ = ⟨0, 0, 50, 50⟩ := by
  decide

set_option maxRecDepth 8000 in
unseal Rat.mul Rat.inv Rat.add Rat.sub in
theorem c8h_sbox2 : scale_boxes_inverse_size 100 100 ⟨1/4, 1/4, 1/2, 1/2⟩ = ⟨25, 25, 50, 50⟩ := by
  decide

set_option maxRecDepth 8000 in
unseal Rat.mul Rat.inv Rat.add Rat.sub in
theorem c8h_cbox1 : scale_boxes_coordinates 100 100 ⟨0, 0, 1/2, 1/2⟩ = ⟨0, 0, 50, 50⟩ := by
  decide

set_option maxRecDepth 8000 in
unseal Rat.mul Rat.inv Rat.add Rat.sub in
theorem c8h_cbox2 : scale_boxes_coordinates 100 100 ⟨1/4, 1/4, 1/2, 1/2⟩ = ⟨25, 25, 75, 75⟩ := by
  decide

set_option maxRecDepth 400000 in
unseal Rat.mul Rat.inv Rat.add Rat.sub in
theorem c8h_mean1 : cropMean 100 100 dmC8 ⟨0, 0, 50, 50⟩ = some (2/5) := by
  decide

set_option maxRecDepth 400000 in
unseal Rat.mul Rat.inv Rat.add Rat.sub in
theorem c8h_mean2 : cropMean 100 100 dmC8 ⟨25, 25, 50, 50⟩ = some (7/10) := by
  decide

set_option maxRecDepth 8000 in
unseal Rat.mul Rat.inv Rat.add Rat.sub in
theorem c8h_norm : normalize_tensor [2/5, 7/10] 0 1 = [0, 1] := by
  decide

theorem c8h_sort : sortByDepth ([(0 : ℚ), 1].enum) = [(0, 0), (1, 1)] := by
  decide

theorem c8h_means :
    ([(⟨0, 0, 50, 50⟩ : SizeBox), ⟨25, 25, 50, 50⟩]).mapM (cropMean 100 100 dmC8) =
      some [2/5, 7/10] := by
  simp only [List.mapM_cons, List.mapM_nil, c8h_mean1, c8h_mean2, Option.bind_eq_bind,
    Option.some_bind, Option.pure_def]

theorem c8_main_eval :
    depth_layout_main 100 100 dmC8 [⟨0, 0, 1/2, 1/2⟩, ⟨1/4, 1/4, 1/2, 1/2⟩] =
      some (fillRegion ⟨25, 25, 75, 75⟩ 1 (fillRegion ⟨0, 0, 50, 50⟩ 0 zeroGrid)) := by
  have hmap1 : [(⟨0, 0, 1/2, 1/2⟩ : NBox), ⟨1/4, 1/4, 1/2, 1/2⟩].map
      (scale_boxes_inverse_size 100 100) = [⟨0, 0, 50, 50⟩, ⟨25, 25, 50, 50⟩] := by
    rw [List.map_cons, List.map_cons, List.map_nil, c8h_sbox1, c8h_sbox2]
  have hmap2 : [(⟨0, 0, 1/2, 1/2⟩ : NBox), ⟨1/4, 1/4, 1/2, 1/2⟩].map
      (scale_boxes_coordinates 100 100) = [⟨0, 0, 50, 50⟩, ⟨25, 25, 75, 75⟩] := by
    rw [List.map_cons, List.map_cons, List.map_nil, c8h_cbox1, c8h_cbox2]
  show ([(⟨0, 0, 1/2, 1/2⟩ : NBox), ⟨1/4, 1/4, 1/2, 1/2⟩].map
      (scale_boxes_inverse_size 100 100)).mapM (cropMean 100 100 dmC8) >>= (fun means =>
        compositor ([(⟨0, 0, 1/2, 1/2⟩ : NBox), ⟨1/4, 1/4, 1/2, 1/2⟩].map
            (scale_boxes_inverse_size 100 100))
          ([(⟨0, 0, 1/2, 1/2⟩ : NBox), ⟨1/4, 1/4, 1/2, 1/2⟩].map
            (scale_boxes_coordinates 100 100))
          (normalize_tensor means 0 1)) = _
  rw [hmap1, hmap2, c8h_means]
  show compositor [⟨0, 0, 50, 50⟩, ⟨25, 25, 50, 50⟩] [⟨0, 0, 50, 50⟩, ⟨25, 25, 75, 75⟩]
      (normalize_tensor [2/5, 7/10] 0 1) = _
  rw [c8h_norm]
  show List.foldlM _ zeroGrid (sortByDepth ([(0 : ℚ), 1].enum)) = _
  rw [c8h_sort]
  rfl

/-- C8.  End-to-end on a 100×100 image with normalized boxes `(0,0,0.5,0.5)` and
`(0.25,0.25,0.5,0.5)` and a depth map holding `0.4` over box 1's region and
`0.8` over the rest of box 2's region: box 1's aggregated mean is `0.4` and box
2's is `0.7`; min-max normalization sends them to `0` and `1`; and the finished
canvas holds the `0.4`-normalized value (the head of the normalized list, `0`)
on the non-overlapping part of box 1's region `[0,50)²`, `1` on all of box 2's
region `[25,75)²`, and `0` everywhere else. -/
theorem c8_end_to_end :
    cropMean 100 100 dmC8 (scale_boxes_inverse_size 100 100 ⟨0, 0, 1/2, 1/2⟩) = some (2/5) ∧
    cropMean 100 100 dmC8 (scale_boxes_inverse_size 100 100 ⟨1/4, 1/4, 1/2, 1/2⟩) = some (7/10) ∧
    normalize_tensor [2/5, 7/10] 0 1 = [0, 1] ∧
    (depth_layout_main 100 100 dmC8 [⟨0, 0, 1/2, 1/2⟩, ⟨1/4, 1/4, 1/2, 1/2⟩]).isSome = true ∧
    ∀ i j : ℕ, i < 100 → j < 100 →
      ((25 ≤ i ∧ i < 75 ∧ 25 ≤ j ∧ j < 75) →
        ((depth_layout_main 100 100 dmC8
          [⟨0, 0, 1/2, 1/2⟩, ⟨1/4, 1/4, 1/2, 1/2⟩]).getD zeroGrid) i j = 1) ∧
      ((i < 50 ∧ j < 50 ∧ ¬(25 ≤ i ∧ i < 75 ∧ 25 ≤ j ∧ j < 75)) →
        ((depth_layout_main 100 100 dmC8
          [⟨0, 0, 1/2, 1/2⟩, ⟨1/4, 1/4, 1/2, 1/2⟩]).getD zeroGrid) i j =
            (normalize_tensor [2/5, 7/10] 0 1).headI) ∧
      ((¬(i < 50 ∧ j < 50) ∧ ¬(25 ≤ i ∧ i < 75 ∧ 25 ≤ j ∧ j < 75)) →
        ((depth_layout_main 100 100 dmC8
          [⟨0, 0, 1/2, 1/2⟩, ⟨1/4, 1/4, 1/2, 1/2⟩]).getD zeroGrid) i j = 0) := by
  refine ⟨by rw [c8h_sbox1]; exact c8h_mean1, by rw [c8h_sbox2]; exact c8h_mean2, c8h_norm,
    by rw [c8_main_eval]; rfl, ?_⟩
  intro i j _ _
  rw [c8h_norm]
  have hval : ((depth_layout_main 100 100 dmC8
      [⟨0, 0, 1/2, 1/2⟩, ⟨1/4, 1/4, 1/2, 1/2⟩]).getD zeroGrid) i j =
        fillRegion ⟨25, 25, 75, 75⟩ 1 (fillRegion ⟨0, 0, 50, 50⟩ 0 zeroGrid) i j := by
    rw [c8_main_eval]
    rfl
  rw [hval]
  refine ⟨?_, ?_, ?_⟩
  · intro hin
    show (if 25 ≤ i ∧ i < 75 ∧ 25 ≤ j ∧ j < 75 then (1:ℚ)
      else if 0 ≤ i ∧ i < 50 ∧ 0 ≤ j ∧ j < 50 then (0:ℚ) else zeroGrid i j) = 1
    rw [if_pos hin]
  · intro hin
    show (if 25 ≤ i ∧ i < 75 ∧ 25 ≤ j ∧ j < 75 then (1:ℚ)
      else if 0 ≤ i ∧ i < 50 ∧ 0 ≤ j ∧ j < 50 then (0:ℚ) else zeroGrid i j) = _
    rw [if_neg hin.2.2, if_pos (by omega)]
    rfl
  · intro hin
    show (if 25 ≤ i ∧ i < 75 ∧ 25 ≤ j ∧ j < 75 then (1:ℚ)
      else if 0 ≤ i ∧ i < 50 ∧ 0 ≤ j ∧ j < 50 then (0:ℚ) else zeroGrid i j) = 0
    rw [if_neg hin.2, if_neg (by omega)]
    rfl

/-- Witness for C8 at the overlap pixel `(30, 30)`, the box-1-only pixel
`(10, 10)` and the outside pixel `(90, 90)`. -/
theorem c8_end_to_end_witness :
    ((depth_layout_main 100 100 dmC8
      [⟨0, 0, 1/2, 1/2⟩, ⟨1/4, 1/4, 1/2, 1/2⟩]).getD zeroGrid) 30 30 = 1 ∧
    ((depth_layout_main 100 100 dmC8
      [⟨0, 0, 1/2, 1/2⟩, ⟨1/4, 1/4, 1/2, 1/2⟩]).getD zeroGrid) 10 10 =
        (normalize_tensor [2/5, 7/10] 0 1).headI ∧
    ((depth_layout_main 100 100 dmC8
      [⟨0, 0, 1/2, 1/2⟩, ⟨1/4, 1/4, 1/2, 1/2⟩]).getD zeroGrid) 90 90 = 0 :=
  ⟨(c8_end_to_end.2.2.2.2 30 30 (by decide) (by decide)).1 (by decide),
   (c8_end_to_end.2.2.2.2 10 10 (by decide) (by decide)).2.1 (by decide),
   (c8_end_to_end.2.2.2.2 90 90 (by decide) (by decide)).2.2 (by decide)⟩

end DepthCompositor
